import Mathlib

/-!
Shallow embedding of the scoring and selection core of
`src/digest_generator.py` (class methods `_score_articles`,
`_remove_author_from_pool`, `_select_wildcard_picks`, `_is_article_in`,
and the selection part of `generate_digest_html`).

Modelling conventions:
* Python floats are modelled by `ℚ` (exact rational arithmetic).
* Timestamps (`datetime`) are modelled by `Int` epoch seconds; the Python
  `(now - published).days` attribute of a `timedelta` is floored division
  by 86400 seconds, i.e. `Int.fdiv`.
* `random.choice` is modelled by an oracle: a list of natural numbers,
  one per loop iteration, reduced modulo the current pool size.  Every
  run of the Python code corresponds to some oracle value, so properties
  quantified over all oracles cover all runs.
* The article dictionaries are modelled by a structure carrying the
  fields the scoring/selection logic reads (plus `link`, standing in for
  the remaining identity-relevant payload); Python `==` on these
  dictionaries is modelled by decidable equality of the structure.
-/

namespace Digest

/-- Scoring weight for restacks (`RESTACK_WEIGHT = 3`, line 48). -/
def RESTACK_WEIGHT : ℚ := 3

/-- Scoring weight for comments (`COMMENT_WEIGHT = 2`, line 49). -/
def COMMENT_WEIGHT : ℚ := 2

/-- Scoring weight for likes (`LIKE_WEIGHT = 1`, line 50). -/
def LIKE_WEIGHT : ℚ := 1

/-- Scoring weight per 100 words (`LENGTH_WEIGHT = 0.05`, line 51). -/
def LENGTH_WEIGHT : ℚ := 5/100

/-- Cap for raw scores (`MAX_RAW_SCORE = 100.0`, line 62). -/
def MAX_RAW_SCORE : ℚ := 100

/-- One fetched article: the dictionary fields read by the scoring and
selection code of `digest_generator.py`. -/
structure Article where
  title : String
  link : String
  published : Int
  authors : List String
  newsletter_name : String
  newsletter_category : String
  word_count : Nat
  reaction_count : Nat
  comment_count : Nat
  restack_count : Nat
  raw_score : ℚ
  score : ℚ
deriving DecidableEq

/-- Python `max((now - article['published']).days, 1)` (line 827):
`timedelta.days` floors towards minus infinity, hence `Int.fdiv`. -/
def days_old (now : Int) (a : Article) : Int :=
  max (Int.fdiv (now - a.published) 86400) 1

/-- The per-article part of `_score_articles` (lines 825-848): compute
the engagement component, optionally divide by `days_old`, add the
length component, and store the result in `raw_score`. -/
def score_article_raw (now : Int) (use_daily_average : Bool) (a : Article) : Article :=
  let d := days_old now a
  let total_engagement : ℚ :=
    (a.reaction_count : ℚ) * LIKE_WEIGHT +
    (a.comment_count : ℚ) * COMMENT_WEIGHT +
    (a.restack_count : ℚ) * RESTACK_WEIGHT
  let engagement_score : ℚ :=
    if use_daily_average then total_engagement / (d : ℚ) else total_engagement
  let length_score : ℚ := ((a.word_count : ℚ) / 100) * LENGTH_WEIGHT
  { a with raw_score := engagement_score + length_score }

/-- Python `min(xs)` over a list (0 on the empty list, unreachable in the
code because the normalisation block is guarded by `if self.articles:`). -/
def list_min : List ℚ → ℚ
  | [] => 0
  | x :: xs => xs.foldl min x

/-- Python `max(xs)` over a list (0 on the empty list, unreachable). -/
def list_max : List ℚ → ℚ
  | [] => 0
  | x :: xs => xs.foldl max x

/-- The normalisation block of `_score_articles` (lines 850-873): compute
the capped minimum and maximum of the raw scores; if the range is zero
every article gets the mid-range score, otherwise each article's score is
its capped raw score, linearly rescaled onto 1..100 when `normalize`. -/
def assign_scores (normalize : Bool) (articles : List Article) : List Article :=
  match articles with
  | [] => []
  | _ :: _ =>
    let raw_scores := articles.map (fun a => a.raw_score)
    let min_score := min (list_min raw_scores) MAX_RAW_SCORE
    let max_score := min (list_max raw_scores) MAX_RAW_SCORE
    let score_range := max_score - min_score
    if score_range = 0 then
      articles.map (fun a => { a with score := MAX_RAW_SCORE / 2 })
    else
      articles.map (fun a =>
        let capped_score := min a.raw_score MAX_RAW_SCORE
        let s : ℚ :=
          if normalize then ((capped_score - min_score) / score_range) * 99 + 1
          else capped_score
        { a with score := s })

/-- The comparison used by the final sort of `_score_articles`
(line 878, `sort(key=lambda x: x['raw_score'], reverse=True)`):
`a` may precede `b` iff `a`'s raw score is at least `b`'s. -/
def raw_ge (a b : Article) : Prop := b.raw_score ≤ a.raw_score

instance : DecidableRel raw_ge :=
  fun a b => inferInstanceAs (Decidable (b.raw_score ≤ a.raw_score))

instance : IsTotal Article raw_ge :=
  ⟨fun a b => le_total b.raw_score a.raw_score⟩

instance : IsTrans Article raw_ge :=
  ⟨fun _ _ _ h₁ h₂ => le_trans h₂ h₁⟩

/-- `_score_articles` (lines 801-898): score every article, assign the
(normalised or capped) display scores, and stably sort the collection in
descending order of `raw_score`.  Python's `list.sort` is stable, also
with `reverse=True`; a stable sort by a total preorder is unique, so the
insertion sort by `raw_ge` computes the same list. -/
def score_articles (now : Int) (use_daily_average normalize : Bool)
    (articles : List Article) : List Article :=
  List.insertionSort raw_ge
    (assign_scores normalize (articles.map (score_article_raw now use_daily_average)))

lemma foldl_min_le_init (xs : List ℚ) (a : ℚ) : xs.foldl min a ≤ a := by
  induction xs generalizing a with
  | nil => exact le_refl a
  | cons x xs ih => exact le_trans (ih (min a x)) (min_le_left a x)

lemma foldl_min_le_mem {x : ℚ} {xs : List ℚ} (hx : x ∈ xs) (a : ℚ) :
    xs.foldl min a ≤ x := by
  induction xs generalizing a with
  | nil => cases hx
  | cons y ys ih =>
    rcases List.mem_cons.mp hx with h | h
    · subst h
      exact le_trans (foldl_min_le_init ys (min a x)) (min_le_right a x)
    · exact ih h (min a y)

lemma init_le_foldl_max (xs : List ℚ) (a : ℚ) : a ≤ xs.foldl max a := by
  induction xs generalizing a with
  | nil => exact le_refl a
  | cons x xs ih => exact le_trans (le_max_left a x) (ih (max a x))

lemma mem_le_foldl_max {x : ℚ} {xs : List ℚ} (hx : x ∈ xs) (a : ℚ) :
    x ≤ xs.foldl max a := by
  induction xs generalizing a with
  | nil => cases hx
  | cons y ys ih =>
    rcases List.mem_cons.mp hx with h | h
    · subst h
      exact le_trans (le_max_right a x) (init_le_foldl_max ys (max a x))
    · exact ih h (max a y)

lemma list_min_le_mem {x : ℚ} {l : List ℚ} (hx : x ∈ l) : list_min l ≤ x := by
  cases l with
  | nil => cases hx
  | cons y ys =>
    rcases List.mem_cons.mp hx with h | h
    · subst h; exact foldl_min_le_init ys x
    · exact foldl_min_le_mem h y

lemma mem_le_list_max {x : ℚ} {l : List ℚ} (hx : x ∈ l) : x ≤ list_max l := by
  cases l with
  | nil => cases hx
  | cons y ys =>
    rcases List.mem_cons.mp hx with h | h
    · subst h; exact init_le_foldl_max ys x
    · exact mem_le_foldl_max h y

/-- Score bounds for one element of the normalisation block's output. -/
lemma assign_scores_bounds {normalize : Bool} {l : List Article} {b : Article}
    (hb : b ∈ assign_scores normalize l) :
    (normalize = true → 1 ≤ b.score ∧ b.score ≤ 100) ∧ b.score ≤ 100 := by
  cases l with
  | nil => simp [assign_scores] at hb
  | cons x xs =>
    set l := x :: xs with hl
    set raw_scores := l.map (fun a => a.raw_score) with hraw
    set min_score := min (list_min raw_scores) MAX_RAW_SCORE with hmin
    set max_score := min (list_max raw_scores) MAX_RAW_SCORE with hmax
    have hassign : assign_scores normalize l =
        (if max_score - min_score = 0 then
          l.map (fun a => { a with score := MAX_RAW_SCORE / 2 })
        else
          l.map (fun a =>
            let capped_score := min a.raw_score MAX_RAW_SCORE
            let s : ℚ :=
              if normalize then
                ((capped_score - min_score) / (max_score - min_score)) * 99 + 1
              else capped_score
            { a with score := s })) := by
      simp only [assign_scores, hl, hraw, hmin, hmax]
    rw [hassign] at hb
    by_cases hrange : max_score - min_score = 0
    · rw [if_pos hrange] at hb
      rcases List.mem_map.mp hb with ⟨a, _, rfl⟩
      refine ⟨fun _ => ⟨?_, ?_⟩, ?_⟩ <;> · dsimp only; norm_num [MAX_RAW_SCORE]
    · rw [if_neg hrange] at hb
      rcases List.mem_map.mp hb with ⟨a, ha, rfl⟩
      have hmem : a.raw_score ∈ raw_scores := by
        rw [hraw]; exact List.mem_map.mpr ⟨a, ha, rfl⟩
      have hcap_lo : min_score ≤ min a.raw_score MAX_RAW_SCORE := by
        rw [hmin]
        exact min_le_min (list_min_le_mem hmem) (le_refl _)
      have hcap_hi : min a.raw_score MAX_RAW_SCORE ≤ max_score := by
        rw [hmax]
        exact min_le_min (mem_le_list_max hmem) (le_refl _)
      have hms : min_score ≤ max_score := le_trans hcap_lo hcap_hi
      have hpos : 0 < max_score - min_score := by
        rcases lt_or_eq_of_le hms with h | h
        · linarith
        · exact absurd (by rw [h]; ring) hrange
      have hcap100 : min a.raw_score MAX_RAW_SCORE ≤ (100 : ℚ) :=
        min_le_right a.raw_score MAX_RAW_SCORE
      have hq_lo : (0 : ℚ) ≤ (min a.raw_score MAX_RAW_SCORE - min_score) / (max_score - min_score) :=
        div_nonneg (by linarith) (le_of_lt hpos)
      have hq_hi : (min a.raw_score MAX_RAW_SCORE - min_score) / (max_score - min_score) ≤ 1 := by
        rw [div_le_one hpos]; linarith
      cases normalize with
      | true =>
        refine ⟨fun _ => ⟨?_, ?_⟩, ?_⟩ <;>
          · dsimp only
            rw [if_pos rfl]
            linarith
      | false =>
        refine ⟨fun h => absurd h (by simp), ?_⟩
        dsimp only
        rw [if_neg (by simp : ¬ false = true)]
        exact hcap100

/-- C2: every article's score after `_score_articles` lies in `[1, 100]`
when normalisation is enabled, and is at most `100` in every mode. -/
theorem c2_score_bounds (now : Int) (use_daily_average normalize : Bool)
    (articles : List Article) (b : Article)
    (hb : b ∈ score_articles now use_daily_average normalize articles) :
    (normalize = true → 1 ≤ b.score ∧ b.score ≤ 100) ∧ b.score ≤ 100 := by
  have hb' : b ∈ assign_scores normalize
      (articles.map (score_article_raw now use_daily_average)) := by
    simpa [score_articles, List.mem_insertionSort] using hb
  exact assign_scores_bounds hb'

/-- Convenience constructor for concrete article records (raw_score and
score start at 0, as before scoring). -/
def mkArticle (title link : String) (published : Int) (authors : List String)
    (newsletter_name newsletter_category : String)
    (word_count reaction_count comment_count restack_count : Nat) : Article :=
  ⟨title, link, published, authors, newsletter_name, newsletter_category,
    word_count, reaction_count, comment_count, restack_count, 0, 0⟩

/-- An all-zero-engagement article, as in the spec's raw-score example. -/
def artZero : Article := mkArticle "t0" "u0" 0 ["alice"] "NL" "Tech" 0 0 0 0

lemma artZero_eval : score_articles 0 true true [artZero] =
    [{ artZero with score := 50 }] := by
  simp [score_articles, assign_scores, score_article_raw, days_old, artZero, mkArticle,
    list_min, list_max, MAX_RAW_SCORE, LIKE_WEIGHT, COMMENT_WEIGHT, RESTACK_WEIGHT,
    LENGTH_WEIGHT, List.insertionSort, List.orderedInsert]
  norm_num [Int.fdiv]

lemma artZero_mem : ({ artZero with score := 50 } : Article) ∈
    score_articles 0 true true [artZero] := by
  rw [artZero_eval]; exact List.mem_singleton.mpr rfl

/-- Witness for C2 at a concrete input: scoring the single all-zero
article with normalisation yields the mid-range score 50 ∈ [1, 100]. -/
theorem c2_score_bounds_witness :
    ({ artZero with score := 50 } : Article) ∈ score_articles 0 true true [artZero] ∧
    ((true = true → 1 ≤ ({ artZero with score := 50 } : Article).score ∧
        ({ artZero with score := 50 } : Article).score ≤ 100) ∧
      ({ artZero with score := 50 } : Article).score ≤ 100) :=
  ⟨artZero_mem, c2_score_bounds 0 true true [artZero] _ artZero_mem⟩

/-- The normalisation block only rewrites `score`: every output article
keeps the raw score and all the input fields of the input article it
came from. -/
lemma assign_scores_fields {normalize : Bool} {l : List Article} {b : Article}
    (hb : b ∈ assign_scores normalize l) :
    ∃ a ∈ l, b.raw_score = a.raw_score ∧ b.published = a.published ∧
      b.word_count = a.word_count ∧ b.reaction_count = a.reaction_count ∧
      b.comment_count = a.comment_count ∧ b.restack_count = a.restack_count := by
  cases l with
  | nil => simp [assign_scores] at hb
  | cons x xs =>
    simp only [assign_scores] at hb
    split at hb <;>
    · rcases List.mem_map.mp hb with ⟨a, ha, rfl⟩
      exact ⟨a, ha, rfl, rfl, rfl, rfl, rfl, rfl⟩

/-- The raw score written by the per-article part of `_score_articles`
is the spec formula over the scored article's own fields (which
`score_article_raw` leaves untouched apart from `raw_score`). -/
lemma score_article_raw_formula {now : Int} {use_daily_average : Bool} {a b : Article}
    (hb : b = score_article_raw now use_daily_average a) :
    b.raw_score =
      (if use_daily_average then
        ((b.reaction_count : ℚ) * 1 + (b.comment_count : ℚ) * 2 + (b.restack_count : ℚ) * 3) /
          ((max (Int.fdiv (now - b.published) 86400) 1 : Int) : ℚ)
      else
        ((b.reaction_count : ℚ) * 1 + (b.comment_count : ℚ) * 2 + (b.restack_count : ℚ) * 3))
      + ((b.word_count : ℚ) / 100) * (5 / 100) := by
  subst hb
  dsimp only [score_article_raw, days_old, LIKE_WEIGHT, COMMENT_WEIGHT, RESTACK_WEIGHT,
    LENGTH_WEIGHT]

/-- C5: every article of `_score_articles`'s output carries as
`raw_score` exactly the weighted engagement sum (weights 1/2/3) of its
own fields, divided by its own `days_old ≥ 1` exactly in daily-average
mode, plus `(word_count/100) * 0.05`; in particular an article with all
four fields zero has raw score exactly 0. -/
theorem c5_raw_score_formula (now : Int) (use_daily_average normalize : Bool)
    (articles : List Article) (b : Article)
    (hb : b ∈ score_articles now use_daily_average normalize articles) :
    b.raw_score =
      (if use_daily_average then
        ((b.reaction_count : ℚ) * 1 + (b.comment_count : ℚ) * 2 + (b.restack_count : ℚ) * 3) /
          ((max (Int.fdiv (now - b.published) 86400) 1 : Int) : ℚ)
      else
        ((b.reaction_count : ℚ) * 1 + (b.comment_count : ℚ) * 2 + (b.restack_count : ℚ) * 3))
      + ((b.word_count : ℚ) / 100) * (5 / 100) ∧
    1 ≤ max (Int.fdiv (now - b.published) 86400) 1 ∧
    (b.word_count = 0 ∧ b.reaction_count = 0 ∧ b.comment_count = 0 ∧ b.restack_count = 0 →
      b.raw_score = 0) := by
  have hb' : b ∈ assign_scores normalize
      (articles.map (score_article_raw now use_daily_average)) := by
    simpa [score_articles, List.mem_insertionSort] using hb
  rcases assign_scores_fields hb' with ⟨a', ha', hraw, hpub, hwc, hrc, hcc, hsc⟩
  rcases List.mem_map.mp ha' with ⟨a, _, rfl⟩
  refine ⟨?_, le_max_right _ _, ?_⟩
  · rw [hraw, hpub, hwc, hrc, hcc, hsc]
    exact score_article_raw_formula rfl
  · rintro ⟨hw, hr, hc, hs⟩
    rw [hraw, score_article_raw_formula (rfl :
        score_article_raw now use_daily_average a = score_article_raw now use_daily_average a),
      hwc.symm.trans hw, hrc.symm.trans hr, hcc.symm.trans hc, hsc.symm.trans hs]
    cases use_daily_average <;> simp

/-- A concrete article: 3 days old, 2 likes, 1 comment, 1 restack,
200 words. -/
def artC5 : Article := mkArticle "t5" "u5" (-259200) ["bob"] "NL" "Tech" 200 2 1 1

/-- The scored record of `artC5`: raw score (2*1+1*2+1*3)/3 + 2*0.05 =
73/30, mid-range display score. -/
def artC5_scored : Article := { artC5 with raw_score := 73/30, score := 50 }

lemma artC5_eval : score_articles 0 true true [artC5] = [artC5_scored] := by
  simp [score_articles, assign_scores, score_article_raw, days_old, artC5, artC5_scored,
    mkArticle, list_min, list_max, MAX_RAW_SCORE, LIKE_WEIGHT, COMMENT_WEIGHT, RESTACK_WEIGHT,
    LENGTH_WEIGHT, List.insertionSort, List.orderedInsert]
  norm_num [Int.fdiv]

lemma artC5_mem : artC5_scored ∈ score_articles 0 true true [artC5] := by
  rw [artC5_eval]; exact List.mem_singleton.mpr rfl

/-- Witness for C5 at a concrete input: the 3-day-old article's raw score
is (2*1 + 1*2 + 1*3)/3 + 2*0.05 = 73/30, computed from its own fields. -/
theorem c5_raw_score_formula_witness :
    artC5_scored ∈ score_articles 0 true true [artC5] ∧
    (artC5_scored.raw_score =
      (if (true : Bool) then
        ((artC5_scored.reaction_count : ℚ) * 1 + (artC5_scored.comment_count : ℚ) * 2 +
          (artC5_scored.restack_count : ℚ) * 3) /
          ((max (Int.fdiv ((0 : Int) - artC5_scored.published) 86400) 1 : Int) : ℚ)
      else
        ((artC5_scored.reaction_count : ℚ) * 1 + (artC5_scored.comment_count : ℚ) * 2 +
          (artC5_scored.restack_count : ℚ) * 3))
      + ((artC5_scored.word_count : ℚ) / 100) * (5 / 100) ∧
    1 ≤ max (Int.fdiv ((0 : Int) - artC5_scored.published) 86400) 1 ∧
    (artC5_scored.word_count = 0 ∧ artC5_scored.reaction_count = 0 ∧
      artC5_scored.comment_count = 0 ∧ artC5_scored.restack_count = 0 →
      artC5_scored.raw_score = 0)) :=
  ⟨artC5_mem, c5_raw_score_formula 0 true true [artC5] artC5_scored artC5_mem⟩

/-- Normalisation of three articles with raw scores 10, 50, 200: the
capped range is [10, 100] and the rescaled scores are exactly 1, 45, 100
(sorted descending by raw score: 100, 45, 1). -/
lemma norm_example {x y z : Article} (hx : x.raw_score = 10) (hy : y.raw_score = 50)
    (hz : z.raw_score = 200) :
    (List.insertionSort raw_ge (assign_scores true [x, y, z])).map (fun b => b.score) =
      [100, 45, 1] := by
  have hassign : assign_scores true [x, y, z] =
      [{ x with score := 1 }, { y with score := 45 }, { z with score := 100 }] := by
    simp only [assign_scores, List.map_cons, List.map_nil, hx, hy, hz, list_min, list_max,
      List.foldl, MAX_RAW_SCORE]
    norm_num [min_def, max_def]
  rw [hassign]
  simp only [List.insertionSort, List.orderedInsert]
  norm_num [raw_ge, hx, hy, hz]

/-- C6 (amended): three articles whose computed raw scores are 10, 50 and
200, with normalisation enabled, end up with scores exactly 1, 45 and 100
(not 1, 40.4, 100 as the spec's example says). -/
theorem c6_normalization_example (now : Int) (use_daily_average : Bool)
    (articles : List Article)
    (h : articles.map (fun a => (score_article_raw now use_daily_average a).raw_score) =
      [10, 50, 200]) :
    (score_articles now use_daily_average true articles).map (fun b => b.score) =
      [100, 45, 1] := by
  cases articles with
  | nil => simp at h
  | cons a t =>
    cases t with
    | nil => simp at h
    | cons b t2 =>
      cases t2 with
      | nil => simp at h
      | cons c t3 =>
        cases t3 with
        | cons d t4 => simp at h
        | nil =>
          simp only [List.map_cons, List.map_nil, List.cons.injEq, and_true] at h
          obtain ⟨h1, h2, h3⟩ := h
          simpa [score_articles] using norm_example h1 h2 h3

/-- Article with raw score 10 (10 likes, nothing else, age 0). -/
def artR10 : Article := mkArticle "t10" "u10" 0 ["ten"] "NL" "Tech" 0 10 0 0

/-- Article with raw score 50. -/
def artR50 : Article := mkArticle "t50" "u50" 0 ["fifty"] "NL" "Tech" 0 50 0 0

/-- Article with raw score 200. -/
def artR200 : Article := mkArticle "t200" "u200" 0 ["many"] "NL" "Tech" 0 200 0 0

lemma artR_raws : [artR10, artR50, artR200].map
    (fun a => (score_article_raw 0 false a).raw_score) = [10, 50, 200] := by
  simp [score_article_raw, days_old, artR10, artR50, artR200, mkArticle,
    LIKE_WEIGHT, COMMENT_WEIGHT, RESTACK_WEIGHT, LENGTH_WEIGHT]

lemma artR_eval : score_articles 0 false true [artR10, artR50, artR200] =
    [{ artR200 with raw_score := 200, score := 100 },
     { artR50 with raw_score := 50, score := 45 },
     { artR10 with raw_score := 10, score := 1 }] := by
  simp [score_articles, assign_scores, score_article_raw, days_old, artR10, artR50, artR200,
    mkArticle, list_min, list_max, MAX_RAW_SCORE, LIKE_WEIGHT, COMMENT_WEIGHT, RESTACK_WEIGHT,
    LENGTH_WEIGHT, List.insertionSort, List.orderedInsert]
  norm_num [raw_ge, min_def, max_def]

/-- Counterexample for C6: at the concrete input with raw scores
10/50/200, the normalised scores are 100, 45, 1 (descending), and the
middle score 45 is not approximately 40.4 — it differs by 4.6. -/
theorem c6_counterexample :
    (score_articles 0 false true [artR10, artR50, artR200]).map (fun b => b.raw_score) =
      [200, 50, 10] ∧
    (score_articles 0 false true [artR10, artR50, artR200]).map (fun b => b.score) =
      [100, 45, 1] ∧
    ¬ |(45 : ℚ) - 404/10| ≤ 1 := by
  refine ⟨?_, ?_, ?_⟩
  · rw [artR_eval]; rfl
  · rw [artR_eval]; rfl
  · rw [show |(45 : ℚ) - 404/10| = 23/5 by rw [abs_of_pos] <;> norm_num]
    norm_num

/-- Witness for the amended C6 at the concrete input 10/50/200. -/
theorem c6_normalization_example_witness :
    ([artR10, artR50, artR200].map
      (fun a => (score_article_raw 0 false a).raw_score) = [10, 50, 200]) ∧
    (score_articles 0 false true [artR10, artR50, artR200]).map (fun b => b.score) =
      [100, 45, 1] :=
  ⟨artR_raws, c6_normalization_example 0 false [artR10, artR50, artR200] artR_raws⟩

/-- C7: the collection returned by `_score_articles` is sorted in
descending order of `raw_score`, and the (stable) sort is a no-op on an
already-sorted collection — equal raw scores keep their relative order
because the list is returned unchanged. -/
theorem c7_sorted_and_idempotent (now : Int) (use_daily_average normalize : Bool)
    (articles : List Article) :
    (score_articles now use_daily_average normalize articles).Sorted raw_ge ∧
    ∀ l : List Article, l.Sorted raw_ge → List.insertionSort raw_ge l = l :=
  ⟨List.sorted_insertionSort raw_ge _, fun _ hl => hl.insertionSort_eq⟩

/-- Article with preset raw score 5 for the sortedness witness. -/
def artHi : Article := { mkArticle "hi" "uh" 0 ["h"] "NL" "Tech" 0 0 0 0 with raw_score := 5 }

/-- Article with preset raw score 2 for the sortedness witness. -/
def artLo : Article := { mkArticle "lo" "ul" 0 ["l"] "NL" "Tech" 0 0 0 0 with raw_score := 2 }

lemma artHiLo_sorted : ([artHi, artLo] : List Article).Sorted raw_ge := by
  simp [List.sorted_cons, raw_ge, artHi, artLo, mkArticle]
  norm_num

/-- Witness for C7 at a concrete input: re-sorting the already-sorted
two-element collection leaves it unchanged. -/
theorem c7_sorted_and_idempotent_witness :
    ([artHi, artLo] : List Article).Sorted raw_ge ∧
    List.insertionSort raw_ge [artHi, artLo] = [artHi, artLo] :=
  ⟨artHiLo_sorted,
    (c7_sorted_and_idempotent 0 true true []).2 [artHi, artLo] artHiLo_sorted⟩

/-- Python `str.strip()`: drop leading and trailing whitespace
(structural model, used for the `a.strip()==author.strip()` comparison
on line 911 of the source). -/
def pyStrip (s : String) : String :=
  ⟨((s.data.dropWhile Char.isWhitespace).reverse.dropWhile Char.isWhitespace).reverse⟩

/-- Does article `wc` list an author whose stripped name equals the
stripped `author` (the inner loop of `_remove_author_from_pool`,
lines 909-913)? -/
def matches_author (author : String) (wc : Article) : Bool :=
  wc.authors.any (fun a => pyStrip a == pyStrip author)

/-- `_remove_author_from_pool` (lines 900-928): when the author name and
the pool are both non-empty, first collect every pool article by a
matching (stripped) author name, then remove the collected articles one
by one — the source's two-phase mark-then-remove, kept verbatim. -/
def remove_author_from_pool (author : String) (pool : List Article) : List Article :=
  if 0 < author.length ∧ 0 < pool.length then
    let wc_to_remove := pool.filter (fun wc => matches_author author wc)
    wc_to_remove.foldl (fun p wc => p.erase wc) pool
  else pool

lemma foldl_erase_cons_of_ne {α : Type} [DecidableEq α] (x : α) (xs ys : List α)
    (h : ∀ y ∈ ys, y ≠ x) :
    ys.foldl (fun acc z => acc.erase z) (x :: xs) =
      x :: ys.foldl (fun acc z => acc.erase z) xs := by
  induction ys generalizing xs with
  | nil => rfl
  | cons y ys ih =>
    simp only [List.foldl_cons]
    rw [List.erase_cons_tail (by simpa using Ne.symm (h y (List.mem_cons_self y ys)))]
    exact ih (xs.erase y) (fun z hz => h z (List.mem_cons_of_mem _ hz))

/-- Two-phase removal: collecting the elements satisfying `p` and erasing
them one by one from the original list is the same as filtering them all
out (the hazard the source's comment on lines 904-905 works around). -/
lemma foldl_erase_filter {α : Type} [DecidableEq α] (p : α → Bool) (l : List α) :
    (l.filter p).foldl (fun acc x => acc.erase x) l = l.filter (fun x => !p x) := by
  induction l with
  | nil => rfl
  | cons x xs ih =>
    by_cases hp : p x
    · rw [List.filter_cons_of_pos hp]
      simp only [List.foldl_cons]
      rw [List.erase_cons_head, ih, List.filter_cons_of_neg (by simp [hp])]
    · rw [List.filter_cons_of_neg hp]
      have hne : ∀ y ∈ xs.filter p, y ≠ x := by
        intro y hy he
        subst he
        exact hp (List.mem_filter.mp hy).2
      rw [foldl_erase_cons_of_ne x xs (xs.filter p) hne, ih,
        List.filter_cons_of_pos (by simp [hp])]

lemma remove_author_from_pool_eq_filter {author : String} (pool : List Article)
    (ha : 0 < author.length) :
    remove_author_from_pool author pool =
      pool.filter (fun wc => !matches_author author wc) := by
  cases pool with
  | nil => simp [remove_author_from_pool]
  | cons x xs =>
    rw [remove_author_from_pool, if_pos ⟨ha, by simp⟩]
    exact foldl_erase_filter _ _

lemma foldl_erase_sublist {α : Type} [DecidableEq α] (ys l : List α) :
    List.Sublist (ys.foldl (fun acc x => acc.erase x) l) l := by
  induction ys generalizing l with
  | nil => exact List.Sublist.refl l
  | cons y ys ih =>
    simp only [List.foldl_cons]
    exact (ih (l.erase y)).trans (List.erase_sublist y l)

lemma remove_author_from_pool_sublist (author : String) (pool : List Article) :
    List.Sublist (remove_author_from_pool author pool) pool := by
  rw [remove_author_from_pool]
  split
  · exact foldl_erase_sublist _ _
  · exact List.Sublist.refl _

lemma not_matching_of_mem_remove {w : Article} {author : String} {pool : List Article}
    (ha : author ≠ "") (hw : w ∈ remove_author_from_pool author pool) :
    matches_author author w = false := by
  have hlen : 0 < author.length := by
    cases author with
    | mk data =>
      cases data with
      | nil => exact absurd rfl ha
      | cons c cs => simp [String.length]
  rw [remove_author_from_pool_eq_filter pool hlen] at hw
  have := (List.mem_filter.mp hw).2
  simpa using this

/-- The inner author loop of `_select_wildcard_picks` (lines 949-951 and
979-981): remove each author's articles from the pool in turn. -/
def remove_authors (authors : List String) (pool : List Article) : List Article :=
  authors.foldl (fun q author => remove_author_from_pool author q) pool

/-- The featured-author removal loop of `_select_wildcard_picks`
(lines 942-951). -/
def remove_featured_authors (featured pool : List Article) : List Article :=
  featured.foldl (fun p article => remove_authors article.authors p) pool

lemma remove_authors_sublist (as : List String) (pool : List Article) :
    List.Sublist (remove_authors as pool) pool := by
  induction as generalizing pool with
  | nil => exact List.Sublist.refl pool
  | cons a as ih =>
    exact (ih (remove_author_from_pool a pool)).trans
      (remove_author_from_pool_sublist a pool)

lemma remove_featured_authors_sublist (featured pool : List Article) :
    List.Sublist (remove_featured_authors featured pool) pool := by
  induction featured generalizing pool with
  | nil => exact List.Sublist.refl pool
  | cons g gs ih =>
    exact (ih (remove_authors g.authors pool)).trans
      (remove_authors_sublist g.authors pool)

lemma not_matching_of_mem_remove_authors {w : Article} {as : List String}
    {pool : List Article} (hw : w ∈ remove_authors as pool) {a : String}
    (haa : a ∈ as) (hne : a ≠ "") : matches_author a w = false := by
  induction as generalizing pool with
  | nil => cases haa
  | cons b bs ih =>
    rcases List.mem_cons.mp haa with h | h
    · subst h
      have hw' : w ∈ remove_author_from_pool a pool :=
        (remove_authors_sublist bs _).subset hw
      exact not_matching_of_mem_remove hne hw'
    · exact ih hw h

lemma not_matching_of_mem_remove_featured {w : Article} {featured pool : List Article}
    (hw : w ∈ remove_featured_authors featured pool) {f : Article} (hf : f ∈ featured)
    {a : String} (ha : a ∈ f.authors) (hne : a ≠ "") : matches_author a w = false := by
  induction featured generalizing pool with
  | nil => cases hf
  | cons g gs ih =>
    rcases List.mem_cons.mp hf with h | h
    · subst h
      have hw' : w ∈ remove_authors f.authors pool :=
        (remove_featured_authors_sublist gs _).subset hw
      exact not_matching_of_mem_remove_authors hw' ha hne
    · exact ih hw h

/-- The sampling loop of `_select_wildcard_picks` (lines 966-981):
while picks remain to be made and the pool is non-empty, pick one pool
element (`random.choice`, modelled by the oracle index modulo the pool
size), append it, erase it from the pool, and then remove every pool
article sharing any of its authors.  The counter `n` is the number of
picks still allowed (`num_wildcards - i`). -/
def wildcard_loop : List Nat → List Article → Nat → List Article
  | _, _, 0 => []
  | _, [], _ + 1 => []
  | oracle, x :: rest, n + 1 =>
    let pool := x :: rest
    let wildcard := pool.getD (oracle.headD 0 % pool.length) x
    let pool1 := pool.erase wildcard
    let pool2 := remove_authors wildcard.authors pool1
    wildcard :: wildcard_loop oracle.tail pool2 n

/-- `_select_wildcard_picks` (lines 930-986): bail out unless wildcards
are requested and articles beyond the featured ones exist; remove
featured authors' articles; bail out on an empty remainder; build the
pool as the prefix of size `min(10 * include_wildcards, remainder)`;
attempt at most `min(include_wildcards, pool_size / 2)` picks. -/
def select_wildcard_picks (oracle : List Nat) (articles featured : List Article)
    (include_wildcards : Nat) : List Article :=
  if ¬(0 < include_wildcards ∧ featured.length < articles.length) then []
  else
    let articles_minus_featured := remove_featured_authors featured articles
    if articles_minus_featured.length = 0 then []
    else
      let wildcard_max := min (10 * include_wildcards) articles_minus_featured.length
      let wildcard_pool := articles_minus_featured.take wildcard_max
      if 0 < wildcard_pool.length then
        let num_wildcards := min include_wildcards (wildcard_pool.length / 2)
        wildcard_loop oracle wildcard_pool num_wildcards
      else []

lemma wildcard_loop_subset {oracle : List Nat} {pool : List Article} {n : Nat}
    {w : Article} (hw : w ∈ wildcard_loop oracle pool n) : w ∈ pool := by
  induction n generalizing oracle pool with
  | zero => simp [wildcard_loop] at hw
  | succ n ih =>
    cases pool with
    | nil => simp [wildcard_loop] at hw
    | cons x rest =>
      rw [wildcard_loop] at hw
      rcases List.mem_cons.mp hw with h | h
      · subst h
        have hlt : oracle.headD 0 % (x :: rest).length < (x :: rest).length :=
          Nat.mod_lt _ (by simp)
        rw [List.getD_eq_getElem _ _ hlt]
        exact List.getElem_mem hlt
      · have h2 := ih h
        have h1 := (remove_authors_sublist _ _).subset h2
        exact (List.erase_sublist _ _).subset h1

lemma wildcard_loop_length {oracle : List Nat} {pool : List Article} {n : Nat} :
    (wildcard_loop oracle pool n).length ≤ n := by
  induction n generalizing oracle pool with
  | zero => simp [wildcard_loop]
  | succ n ih =>
    cases pool with
    | nil => simp [wildcard_loop]
    | cons x rest =>
      rw [wildcard_loop]
      simpa [List.length_cons] using ih

lemma wildcard_loop_nodup {oracle : List Nat} {pool : List Article} {n : Nat}
    (hpool : pool.Nodup) : (wildcard_loop oracle pool n).Nodup := by
  induction n generalizing oracle pool with
  | zero => simp [wildcard_loop]
  | succ n ih =>
    cases pool with
    | nil => simp [wildcard_loop]
    | cons x rest =>
      rw [wildcard_loop]
      refine List.nodup_cons.mpr ⟨?_, ?_⟩
      · intro hmem
        have h2 := wildcard_loop_subset hmem
        have h1 := (remove_authors_sublist _ _).subset h2
        rcases (hpool.mem_erase_iff.mp h1) with ⟨hne, _⟩
        exact hne rfl
      · exact ih ((remove_authors_sublist _ _).nodup ((List.erase_sublist _ _).nodup hpool))

/-- C8: the wildcard pool is the prefix of the featured-author-free
remainder of size `min(10 * wildcard_count, remainder size)`, the number
of wildcards returned is at most `min(wildcard_count, pool_size / 2)`,
and a pool of size 1 yields no wildcards (the function is total: fewer
wildcards than requested is not an error). -/
theorem c8_pool_and_pick_bounds (oracle : List Nat) (articles featured : List Article)
    (include_wildcards : Nat) :
    ((remove_featured_authors featured articles).take
        (min (10 * include_wildcards) (remove_featured_authors featured articles).length)).length
      = min (10 * include_wildcards) (remove_featured_authors featured articles).length ∧
    ((remove_featured_authors featured articles).take
        (min (10 * include_wildcards) (remove_featured_authors featured articles).length)) ++
      ((remove_featured_authors featured articles).drop
        (min (10 * include_wildcards) (remove_featured_authors featured articles).length))
      = remove_featured_authors featured articles ∧
    (select_wildcard_picks oracle articles featured include_wildcards).length ≤
      min include_wildcards
        (((remove_featured_authors featured articles).take
          (min (10 * include_wildcards)
            (remove_featured_authors featured articles).length)).length / 2) ∧
    (((remove_featured_authors featured articles).take
        (min (10 * include_wildcards)
          (remove_featured_authors featured articles).length)).length = 1 →
      select_wildcard_picks oracle articles featured include_wildcards = []) := by
  refine ⟨?_, List.take_append_drop _ _, ?_, ?_⟩
  · rw [List.length_take]
    exact Nat.min_eq_left (Nat.min_le_right _ _)
  · simp only [select_wildcard_picks]
    split
    · simp
    · split
      · simp
      · split
        · exact wildcard_loop_length
        · simp
  · intro h1
    simp only [select_wildcard_picks]
    split
    · rfl
    · split
      · rfl
      · split
        · rw [h1, show include_wildcards ⊓ 1 / 2 = 0 by simp]
          simp [wildcard_loop]
        · rfl

/-- A featured article by author A. -/
def artF : Article := mkArticle "tf" "uf" 0 ["A"] "NL" "Tech" 0 0 0 0

/-- A pool article by author B1. -/
def artB1 : Article := mkArticle "tb1" "ub1" 0 ["B1"] "NL" "Tech" 0 0 0 0

/-- A pool article by author B2. -/
def artB2 : Article := mkArticle "tb2" "ub2" 0 ["B2"] "NL" "Tech" 0 0 0 0

/-- Witness for C8's conditional part at a concrete input: with one
featured article and one other article the pool has size 1, and no
wildcard is selected even though one was requested. -/
theorem c8_pool_and_pick_bounds_witness :
    ((remove_featured_authors [artF] [artF, artB1]).take
        (min (10 * 1) (remove_featured_authors [artF] [artF, artB1]).length)).length = 1 ∧
    select_wildcard_picks [0] [artF, artB1] [artF] 1 = [] :=
  ⟨by decide, (c8_pool_and_pick_bounds [0] [artF, artB1] [artF] 1).2.2.2 (by decide)⟩

/-- C4: no author name of a featured article occurs among the author
names of any selected wildcard (assuming, per the data model, that
author names are non-empty). -/
theorem c4_author_diversity (oracle : List Nat) (articles featured : List Article)
    (include_wildcards : Nat)
    (hnames : ∀ f ∈ featured, ∀ name ∈ f.authors, name ≠ "")
    (w : Article) (hw : w ∈ select_wildcard_picks oracle articles featured include_wildcards)
    (f : Article) (hf : f ∈ featured) (name : String) (hn : name ∈ f.authors) :
    name ∉ w.authors := by
  intro hmem
  simp only [select_wildcard_picks] at hw
  split at hw
  · exact absurd hw (List.not_mem_nil w)
  · split at hw
    · exact absurd hw (List.not_mem_nil w)
    · split at hw
      · have hpool := wildcard_loop_subset hw
        have hrem : w ∈ remove_featured_authors featured articles :=
          (List.take_sublist _ _).subset hpool
        have hmatch := not_matching_of_mem_remove_featured hrem hf hn (hnames f hf name hn)
        have htrue : matches_author name w = true :=
          List.any_eq_true.mpr ⟨name, hmem, by simp⟩
        rw [hmatch] at htrue
        cases htrue
      · exact absurd hw (List.not_mem_nil w)

/-- Witness for C4 at a concrete input: the selected wildcard is the
author-B1 article, which shares no author name with the featured
author-A article. -/
theorem c4_author_diversity_witness :
    (∀ f ∈ [artF], ∀ name ∈ f.authors, name ≠ "") ∧
    artB1 ∈ select_wildcard_picks [0] [artF, artB1, artB2] [artF] 1 ∧
    artF ∈ [artF] ∧ "A" ∈ artF.authors ∧ "A" ∉ artB1.authors :=
  ⟨by decide, by decide, by decide, by decide,
    c4_author_diversity [0] [artF, artB1, artB2] [artF] 1 (by decide) artB1 (by decide)
      artF (by decide) "A" (by decide)⟩

/-- `_is_article_in` (lines 988-995): membership by the
(authors, title, newsletter_name) triple, a linear scan with early exit,
i.e. `List.any`. -/
def is_article_in (article : Article) (articles_subset : List Article) : Bool :=
  articles_subset.any (fun a =>
    article.authors == a.authors && article.title == a.title &&
      article.newsletter_name == a.newsletter_name)

/-- The duplicate-identity triple used by `_is_article_in` and by the
spec's notion of duplicates. -/
def article_key (a : Article) : List String × String × String :=
  (a.authors, a.title, a.newsletter_name)

/-- The featured selection of `generate_digest_html` (lines 1020-1023):
the first `featured_count` articles of the (sorted) collection. -/
def select_featured (articles : List Article) (featured_count : Nat) : List Article :=
  if 0 < featured_count then articles.take featured_count else []

/-- The categorised remainder of `generate_digest_html` (lines
1033-1037), flattened: every article that `_is_article_in` finds in
neither `featured` nor `wildcards`, in collection order. -/
def categorized_rest (articles featured wildcards : List Article) : List Article :=
  articles.filter (fun a => !is_article_in a featured && !is_article_in a wildcards)

/-- One list of the categorized mapping (`categorized[category]`,
line 1037): the remainder articles whose `newsletter_category` is the
given key, in collection order. -/
def categorized (articles featured wildcards : List Article) (category : String) :
    List Article :=
  (categorized_rest articles featured wildcards).filter
    (fun a => a.newsletter_category == category)

lemma is_article_in_iff {a : Article} {l : List Article} :
    is_article_in a l = true ↔
      ∃ b ∈ l, a.authors = b.authors ∧ a.title = b.title ∧
        a.newsletter_name = b.newsletter_name := by
  simp [is_article_in, List.any_eq_true, and_assoc]

/-- C10: an article of the collection appears in the categorized list of
its own category iff no featured article and no wildcard article agrees
with it on (authors, title, newsletter name); consequently an article
sharing that triple with a featured or wildcard article is excluded from
every categorized list. -/
theorem c10_categorized_membership (articles featured wildcards : List Article)
    (a : Article) (ha : a ∈ articles) :
    (a ∈ categorized articles featured wildcards a.newsletter_category ↔
      (¬ ∃ f ∈ featured, a.authors = f.authors ∧ a.title = f.title ∧
          a.newsletter_name = f.newsletter_name) ∧
      (¬ ∃ w ∈ wildcards, a.authors = w.authors ∧ a.title = w.title ∧
          a.newsletter_name = w.newsletter_name)) ∧
    (((∃ f ∈ featured, a.authors = f.authors ∧ a.title = f.title ∧
          a.newsletter_name = f.newsletter_name) ∨
      (∃ w ∈ wildcards, a.authors = w.authors ∧ a.title = w.title ∧
          a.newsletter_name = w.newsletter_name)) →
      ∀ c, a ∉ categorized articles featured wildcards c) := by
  constructor
  · rw [categorized, List.mem_filter, categorized_rest, List.mem_filter,
      Bool.and_eq_true, Bool.not_eq_true', Bool.not_eq_true']
    constructor
    · rintro ⟨⟨_, hfm, hwm⟩, _⟩
      constructor
      · intro hex
        have h := is_article_in_iff.mpr hex
        simp [hfm] at h
      · intro hex
        have h := is_article_in_iff.mpr hex
        simp [hwm] at h
    · rintro ⟨h1, h2⟩
      refine ⟨⟨ha, ?_, ?_⟩, by simp⟩
      · cases hfe : is_article_in a featured
        · rfl
        · exact absurd (is_article_in_iff.mp hfe) h1
      · cases hfe : is_article_in a wildcards
        · rfl
        · exact absurd (is_article_in_iff.mp hfe) h2
  · intro hex c hmem
    rw [categorized, List.mem_filter, categorized_rest, List.mem_filter] at hmem
    rcases hmem with ⟨⟨_, hkeep⟩, _⟩
    rw [Bool.and_eq_true, Bool.not_eq_true', Bool.not_eq_true'] at hkeep
    rcases hex with hex | hex
    · exact absurd (is_article_in_iff.mpr hex) (by simp [hkeep.1])
    · exact absurd (is_article_in_iff.mpr hex) (by simp [hkeep.2])

/-- Witness for C10 at a concrete input: `artB2` matches no featured or
wildcard article and is in its category list. -/
theorem c10_categorized_membership_witness :
    artB2 ∈ [artF, artB1, artB2] ∧
    (artB2 ∈ categorized [artF, artB1, artB2] [artF] [artB1] artB2.newsletter_category ↔
      (¬ ∃ f ∈ [artF], artB2.authors = f.authors ∧ artB2.title = f.title ∧
          artB2.newsletter_name = f.newsletter_name) ∧
      (¬ ∃ w ∈ [artB1], artB2.authors = w.authors ∧ artB2.title = w.title ∧
          artB2.newsletter_name = w.newsletter_name)) :=
  ⟨by decide,
    (c10_categorized_membership [artF, artB1, artB2] [artF] [artB1] artB2 (by decide)).1⟩

lemma eq_of_key_eq {l : List Article}
    (h : l.Pairwise (fun x y => article_key x ≠ article_key y))
    {a b : Article} (ha : a ∈ l) (hb : b ∈ l)
    (hk : article_key a = article_key b) : a = b := by
  induction l with
  | nil => cases ha
  | cons x xs ih =>
    rcases List.pairwise_cons.mp h with ⟨hx, hxs⟩
    rcases List.mem_cons.mp ha with h1 | h1 <;> rcases List.mem_cons.mp hb with h2 | h2
    · rw [h1, h2]
    · subst h1; exact absurd hk (hx b h2)
    · subst h2; exact absurd hk.symm (hx a h1)
    · exact ih hxs h1 h2

/-- Under pairwise-distinct triples, `_is_article_in` agrees with plain
list membership for articles and sublists of the collection. -/
lemma is_article_in_eq_mem {articles S : List Article}
    (h : articles.Pairwise (fun x y => article_key x ≠ article_key y))
    (hS : ∀ b ∈ S, b ∈ articles) {a : Article} (ha : a ∈ articles) :
    is_article_in a S = true ↔ a ∈ S := by
  constructor
  · intro hin
    rcases is_article_in_iff.mp hin with ⟨b, hb, h1, h2, h3⟩
    have : a = b := eq_of_key_eq h ha (hS b hb) (by simp [article_key, h1, h2, h3])
    rw [this]
    exact hb
  · intro hmem
    exact is_article_in_iff.mpr ⟨a, hmem, rfl, rfl, rfl⟩

lemma select_featured_subset {articles : List Article} {featured_count : Nat} :
    ∀ b ∈ select_featured articles featured_count, b ∈ articles := by
  intro b hb
  rw [select_featured] at hb
  split at hb
  · exact (List.take_sublist _ _).subset hb
  · cases hb

lemma select_featured_sublist (articles : List Article) (featured_count : Nat) :
    List.Sublist (select_featured articles featured_count) articles := by
  rw [select_featured]
  split
  · exact List.take_sublist _ _
  · exact List.nil_sublist _

lemma select_wildcard_picks_mem_remaining {oracle : List Nat}
    {articles featured : List Article} {include_wildcards : Nat} {w : Article}
    (hw : w ∈ select_wildcard_picks oracle articles featured include_wildcards) :
    w ∈ remove_featured_authors featured articles := by
  simp only [select_wildcard_picks] at hw
  split at hw
  · exact absurd hw (List.not_mem_nil w)
  · split at hw
    · exact absurd hw (List.not_mem_nil w)
    · split at hw
      · exact (List.take_sublist _ _).subset (wildcard_loop_subset hw)
      · exact absurd hw (List.not_mem_nil w)

lemma select_wildcard_picks_subset {oracle : List Nat}
    {articles featured : List Article} {include_wildcards : Nat} {w : Article}
    (hw : w ∈ select_wildcard_picks oracle articles featured include_wildcards) :
    w ∈ articles :=
  (remove_featured_authors_sublist _ _).subset (select_wildcard_picks_mem_remaining hw)

lemma select_wildcard_picks_nodup {oracle : List Nat}
    {articles featured : List Article} {include_wildcards : Nat}
    (h : articles.Nodup) :
    (select_wildcard_picks oracle articles featured include_wildcards).Nodup := by
  simp only [select_wildcard_picks]
  split
  · exact List.nodup_nil
  · split
    · exact List.nodup_nil
    · split
      · exact wildcard_loop_nodup
          ((List.take_sublist _ _).nodup ((remove_featured_authors_sublist _ _).nodup h))
      · exact List.nodup_nil

/-- A featured article with some non-empty author name is never selected
as a wildcard: all its articles were removed from the pool. -/
lemma wildcard_not_featured {oracle : List Nat}
    {articles featured : List Article} {include_wildcards : Nat} {w : Article}
    (hw : w ∈ select_wildcard_picks oracle articles featured include_wildcards)
    (hwf : w ∈ featured) {name : String} (hname : name ∈ w.authors)
    (hne : name ≠ "") : False := by
  have hrem := select_wildcard_picks_mem_remaining hw
  have hmatch := not_matching_of_mem_remove_featured hrem hwf hname hne
  have htrue : matches_author name w = true :=
    List.any_eq_true.mpr ⟨name, hname, by simp⟩
  rw [hmatch] at htrue
  cases htrue

lemma length_filter_mem {l S : List Article} (hl : l.Nodup) (hS : S.Nodup)
    (hsub : ∀ b ∈ S, b ∈ l) :
    (l.filter (fun a => decide (a ∈ S))).length = S.length := by
  have hnd : (l.filter (fun a => decide (a ∈ S))).Nodup := hl.filter _
  have hiff : ∀ x, x ∈ l.filter (fun a => decide (a ∈ S)) ↔ x ∈ S := by
    intro x
    rw [List.mem_filter]
    constructor
    · rintro ⟨_, hx⟩
      simpa using hx
    · intro hx
      exact ⟨hsub x hx, by simpa using hx⟩
  exact ((List.perm_ext_iff_of_nodup hnd hS).mpr hiff).length_eq

lemma filter_or_length {l F W : List Article} (hl : l.Nodup) (hF : F.Nodup)
    (hW : W.Nodup) (hFl : ∀ b ∈ F, b ∈ l) (hWl : ∀ b ∈ W, b ∈ l)
    (hdisj : ∀ a, a ∈ F → a ∉ W) :
    (l.filter (fun a => decide (a ∈ F) || decide (a ∈ W))).length =
      F.length + W.length := by
  have hndFW : (F ++ W).Nodup :=
    List.Nodup.append hF hW (fun a haF haW => hdisj a haF haW)
  have hnd : (l.filter (fun a => decide (a ∈ F) || decide (a ∈ W))).Nodup :=
    hl.filter _
  have hiff : ∀ x, x ∈ l.filter (fun a => decide (a ∈ F) || decide (a ∈ W)) ↔
      x ∈ F ++ W := by
    intro x
    rw [List.mem_filter, List.mem_append]
    constructor
    · rintro ⟨_, hx⟩
      rcases Bool.or_eq_true_iff.mp hx with h | h
      · exact Or.inl (by simpa using h)
      · exact Or.inr (by simpa using h)
    · rintro (hx | hx)
      · exact ⟨hFl x hx, by simp [hx]⟩
      · exact ⟨hWl x hx, by simp [hx]⟩
  have := ((List.perm_ext_iff_of_nodup hnd hndFW).mpr hiff).length_eq
  simpa using this

/-- Summing the categorized lists over the distinct categories of the
remainder counts every remainder article exactly once. -/
lemma sum_categorized_lengths (rest : List Article) :
    (((rest.map (fun a => a.newsletter_category)).dedup).map
      (fun c => (rest.filter (fun a => a.newsletter_category == c)).length)).sum =
      rest.length := by
  have hcount : ∀ c, (rest.filter (fun a => a.newsletter_category == c)).length =
      (rest.map (fun a => a.newsletter_category)).count c := by
    intro c
    rw [List.count, List.countP_map, ← List.countP_eq_length_filter]
    rfl
  calc (((rest.map (fun a => a.newsletter_category)).dedup).map
      (fun c => (rest.filter (fun a => a.newsletter_category == c)).length)).sum
      = (((rest.map (fun a => a.newsletter_category)).dedup).map
        (fun c => (rest.map (fun a => a.newsletter_category)).count c)).sum := by
        rw [List.map_congr_left (fun c _ => hcount c)]
    _ = (rest.map (fun a => a.newsletter_category)).length :=
        List.sum_map_count_dedup_eq_length _
    _ = rest.length := List.length_map _ _

lemma is_article_in_eq_decide {articles S : List Article}
    (h : articles.Pairwise (fun x y => article_key x ≠ article_key y))
    (hS : ∀ b ∈ S, b ∈ articles) {a : Article} (ha : a ∈ articles) :
    is_article_in a S = decide (a ∈ S) := by
  by_cases hmem : a ∈ S
  · rw [(is_article_in_eq_mem h hS ha).mpr hmem]
    simp [hmem]
  · cases hh : is_article_in a S
    · simp [hmem]
    · exact absurd ((is_article_in_eq_mem h hS ha).mp hh) hmem

/-- C3: on a collection with pairwise-distinct (title, authors,
newsletter) triples (the deduplicated collection) whose articles have a
non-empty author name, featured + wildcards + the categorized lists
partition the collection: the sizes add up to the collection size and no
article is in two buckets. -/
theorem c3_partition_complete (oracle : List Nat) (articles : List Article)
    (featured_count include_wildcards : Nat)
    (hkeys : articles.Pairwise (fun x y => article_key x ≠ article_key y))
    (hauthors : ∀ a ∈ articles, ∃ name ∈ a.authors, name ≠ "") :
    let F := select_featured articles featured_count
    let W := select_wildcard_picks oracle articles F include_wildcards
    let rest := categorized_rest articles F W
    (F.length + W.length +
      (((rest.map (fun a => a.newsletter_category)).dedup).map
        (fun c => (categorized articles F W c).length)).sum = articles.length) ∧
    (∀ a : Article, ¬(a ∈ F ∧ a ∈ W) ∧ ¬(a ∈ F ∧ a ∈ rest) ∧ ¬(a ∈ W ∧ a ∈ rest)) := by
  intro F W rest
  have hnodup : articles.Nodup :=
    List.Pairwise.imp (fun hk heq => hk (by rw [heq])) hkeys
  have hFsub : ∀ b ∈ F, b ∈ articles := select_featured_subset
  have hWsub : ∀ b ∈ W, b ∈ articles := fun b hb => select_wildcard_picks_subset hb
  have hFnodup : F.Nodup := (select_featured_sublist articles featured_count).nodup hnodup
  have hWnodup : W.Nodup := select_wildcard_picks_nodup hnodup
  have hdisj : ∀ a, a ∈ F → a ∉ W := by
    intro a haF haW
    obtain ⟨name, hname, hne⟩ := hauthors a (hFsub a haF)
    exact wildcard_not_featured haW haF hname hne
  have hrest_eq : rest = articles.filter (fun a => !(decide (a ∈ F) || decide (a ∈ W))) := by
    rw [show rest = categorized_rest articles F W from rfl, categorized_rest]
    apply List.filter_congr
    intro a haa
    rw [is_article_in_eq_decide hkeys hFsub haa, is_article_in_eq_decide hkeys hWsub haa,
      Bool.not_or]
  have hmem_rest : ∀ a, a ∈ rest ↔ a ∈ articles ∧ a ∉ F ∧ a ∉ W := by
    intro a
    rw [hrest_eq, List.mem_filter]
    simp
  constructor
  · have hsplit := articles.length_eq_length_filter_add
      (fun a => decide (a ∈ F) || decide (a ∈ W))
    have hor := filter_or_length hnodup hFnodup hWnodup hFsub hWsub hdisj
    have hsum : (((rest.map (fun a => a.newsletter_category)).dedup).map
        (fun c => (categorized articles F W c).length)).sum = rest.length :=
      sum_categorized_lengths rest
    rw [hsum, ← hor]
    rw [hrest_eq]
    omega
  · intro a
    refine ⟨fun h12 => hdisj a h12.1 h12.2, fun h12 => ?_, fun h12 => ?_⟩
    · exact ((hmem_rest a).mp h12.2).2.1 h12.1
    · exact ((hmem_rest a).mp h12.2).2.2 h12.1

/-- Witness for C3 at a concrete input: three distinct-triple articles,
one featured, one wildcard, one categorized; 1 + 1 + 1 = 3 and the
buckets are pairwise disjoint. -/
theorem c3_partition_complete_witness :
    ([artF, artB1, artB2].Pairwise (fun x y => article_key x ≠ article_key y)) ∧
    (∀ a ∈ [artF, artB1, artB2], ∃ name ∈ a.authors, name ≠ "") ∧
    (let F := select_featured [artF, artB1, artB2] 1
     let W := select_wildcard_picks [0] [artF, artB1, artB2] F 1
     let rest := categorized_rest [artF, artB1, artB2] F W
     (F.length + W.length +
       (((rest.map (fun a => a.newsletter_category)).dedup).map
         (fun c => (categorized [artF, artB1, artB2] F W c).length)).sum = 3) ∧
     (∀ a : Article, ¬(a ∈ F ∧ a ∈ W) ∧ ¬(a ∈ F ∧ a ∈ rest) ∧ ¬(a ∈ W ∧ a ∈ rest))) :=
  ⟨by decide, by decide,
    c3_partition_complete [0] [artF, artB1, artB2] 1 1 (by decide) (by decide)⟩

/-- The duplicate-detection loop of `generate_digest_html` (lines
1004-1010): working through the list with its processed prefix as
`seen`, an article is recorded for removal when an equal record occurs
among its predecessors (Python `in`, full-record equality; the loop
starts at index 1). -/
def dups_aux : List Article → List Article → List Article
  | _, [] => []
  | seen, x :: xs =>
    if x ∈ seen then x :: dups_aux (seen ++ [x]) xs
    else dups_aux (seen ++ [x]) xs

/-- `dups_to_remove` of `generate_digest_html` (lines 1004-1010). -/
def dups_to_remove (articles : List Article) : List Article :=
  match articles with
  | [] => []
  | x :: xs => dups_aux [x] xs

/-- The selection phase of `generate_digest_html` (lines 997-1037) as a
fallible computation.  The duplicate-removal loop (lines 1011-1013)
executes `articles.remove(article)` for each recorded duplicate — but
`articles` is a local variable of this method, first assigned only in
the later HTML-rendering loop (line 1085), so the first removal raises
`UnboundLocalError`.  The model therefore returns that error whenever
the recorded duplicate list is non-empty, and otherwise the featured
prefix, the wildcard picks and the flattened categorized remainder. -/
def generate_digest_html (oracle : List Nat) (articles : List Article)
    (featured_count include_wildcards : Nat) :
    Except String (List Article × List Article × List Article) :=
  if dups_to_remove articles ≠ [] then
    .error "UnboundLocalError: local variable 'articles' referenced before assignment"
  else
    let featured := select_featured articles featured_count
    let wildcards := select_wildcard_picks oracle articles featured include_wildcards
    .ok (featured, wildcards, categorized_rest articles featured wildcards)

/-- An article record used twice to exhibit the duplicate crash. -/
def artDup : Article := mkArticle "T" "uT" 0 ["A"] "N" "Tech" 0 0 0 0

/-- Two records agreeing on (title, authors, newsletter) but with
different links. -/
def artT1 : Article := mkArticle "T" "u1" 0 ["A"] "N" "Tech" 0 0 0 0

/-- Second record of the triple-equal pair. -/
def artT2 : Article := mkArticle "T" "u2" 0 ["A"] "N" "Tech" 0 0 0 0

/-- C1 (code bug): feeding the same article record twice makes
`generate_digest_html` raise `UnboundLocalError` (the removal targets
the unassigned local `articles` instead of `self.articles`) rather than
keep one copy; and two records agreeing only on (title, authors,
newsletter) are not detected as duplicates at all — both reach the
categorized output. -/
theorem c1_dedup_code_bug :
    generate_digest_html [0] [artDup, artDup] 1 1 =
      .error "UnboundLocalError: local variable 'articles' referenced before assignment" ∧
    generate_digest_html [0] [artT1, artT2] 0 0 = .ok ([], [], [artT1, artT2]) :=
  ⟨rfl, rfl⟩

/-- A second duplicate record for the C9 failing input. -/
def artC9 : Article := mkArticle "T9" "u9" 0 ["C"] "N9" "Tech" 5 1 0 0

/-- C9 (code bug): empty collections and zero quotas degrade gracefully
to an empty selection, and an all-zero-engagement article is selected
fine — but a collection containing a duplicate record, which the claim
lists among plausible inputs, raises `UnboundLocalError`. -/
theorem c9_no_fatal_errors_refuted :
    generate_digest_html [0] [] 0 0 = .ok ([], [], []) ∧
    generate_digest_html [0] [artZero] 0 0 = .ok ([], [], [artZero]) ∧
    generate_digest_html [0] [artC9, artC9, artB1] 1 1 =
      .error "UnboundLocalError: local variable 'articles' referenced before assignment" :=
  ⟨rfl, rfl, rfl⟩

end Digest
